import Mathlib

/-!
Shallow embedding of `server/app.py` ("Covenant of Drogvyn"), the turn-based
narrative session handler.  Pure Python string functions become Lean functions
on `String`/`List Char`; the persisted session record becomes the `Memory`
structure; file-system access becomes an explicit `FS` map; each call to
`save_memory` is recorded as a snapshot in a list so that per-turn store
traffic can be counted.

Model restrictions (noted where they matter): Python `str.lower`, `str.strip`
and the regex classes `\s`/`\d` act on full Unicode; here they are modelled on
their ASCII core (`Char.toLower`, the six ASCII whitespace characters,
`Char.isDigit`).  None of the claims examined depend on non-ASCII case or
whitespace behaviour.
-/

/-- Python whitespace test, restricted to the six ASCII whitespace characters
(the core of `str.strip` and of the regex class `\s`). -/
def pyIsSpaceChar (c : Char) : Bool :=
  c == ' ' || c == '\t' || c == '\n' || c == '\r' || c == '\x0b' || c == '\x0c'

/-- Character class `[A-Za-z]` from the source regexes. -/
def pyIsAlpha (c : Char) : Bool :=
  ('A' ≤ c && c ≤ 'Z') || ('a' ≤ c && c ≤ 'z')

/-- Character class `[A-Za-z0-9_-]` used by the `file-` artifact pattern. -/
def isFileIdChar (c : Char) : Bool :=
  pyIsAlpha c || c.isDigit || c == '_' || c == '-'

/-- Character class `[A-Za-z0-9_]` used by the citation artifact pattern. -/
def isCiteWordChar (c : Char) : Bool :=
  pyIsAlpha c || c.isDigit || c == '_'

/-- Python `str.strip()` (ASCII-whitespace model). -/
def pyStrip (s : String) : String :=
  ⟨((s.data.dropWhile pyIsSpaceChar).reverse.dropWhile pyIsSpaceChar).reverse⟩

/-- Python `str.lower()` (ASCII model, character-wise `Char.toLower`). -/
def pyLower (s : String) : String :=
  ⟨s.data.map Char.toLower⟩

/-- Python `str.capitalize()`: first character upper-cased, remainder
lower-cased (ASCII model). -/
def pyCapitalize (s : String) : String :=
  match s.data with
  | [] => ""
  | c :: cs => ⟨Char.toUpper c :: cs.map Char.toLower⟩

/-- Boolean prefix test on character lists (Python `str.startswith`). -/
def hasPre : List Char → List Char → Bool
  | [], _ => true
  | _ :: _, [] => false
  | p :: ps, c :: cs => p == c && hasPre ps cs

/-- Python `s.startswith(pre)`. -/
def strHasPre (pre s : String) : Bool :=
  hasPre pre.data s.data

/-- Case-insensitive prefix test: the pattern is given lower-case and each
subject character is lowered before comparison (regex literal matching under
`re.IGNORECASE`). -/
def hasPreCI : List Char → List Char → Bool
  | [], _ => true
  | _ :: _, [] => false
  | p :: ps, c :: cs => p == Char.toLower c && hasPreCI ps cs

/-- Length of the maximal prefix whose characters satisfy `p` (a greedy
`X+`/`X*` regex scan). -/
def countWhile (p : Char → Bool) : List Char → Nat
  | [] => 0
  | c :: cs => if p c then countWhile p cs + 1 else 0

/-- Python `s.split(" ", 1)[1]`: everything after the first literal space
(empty when there is no space; callers in the source only reach this after a
`startswith` guard that guarantees a space). -/
def afterFirstSpace (s : String) : String :=
  ⟨afterFirstSpaceAux s.data⟩
where afterFirstSpaceAux : List Char → List Char
  | [] => []
  | c :: cs => if c == ' ' then cs else afterFirstSpaceAux cs

/-- Python truthiness of `a or b` on strings: `a` if non-empty, else `b`. -/
def pyOr (a b : String) : String :=
  if a = "" then b else a

/-- Python `sep.join(items)`. -/
def pyJoin (sep : String) : List String → String
  | [] => ""
  | [x] => x
  | x :: xs => x ++ sep ++ pyJoin sep xs

/-!
## The Frost Scrubber (`FROST_REGEX` / `frost_scrub`)

The source regex is an ordered alternation of five patterns, substituted by
`re.sub(..., '')` with `re.IGNORECASE`:

1. `\[[^\]]*?\.(txt|pdf|docx)[^\]]*?\]`  (bracketed file refs with extensions)
2. `\[[^\]]*?\]`                          (any other bracketed tags)
3. `file-[A-Za-z0-9_-]+`                  (file-IDs)
4. `/mnt/data/[^\s]+`                     (path fragments)
5. `†[A-Za-z0-9_]+†L\d+-L\d+`             (citation tokens)

Each alternative below computes the length of the (unique, per Python's
leftmost/lazy/greedy backtracking rules) match starting at the head of the
list, or `none`. -/

/-- Distance to just past the first `]` (the lazy scan `[^\]]*?\]`). -/
def scanToRB : List Char → Option Nat
  | [] => none
  | c :: cs => if c = ']' then some 1 else (scanToRB cs).map (· + 1)

/-- Case-insensitive match of one of the extensions `txt`, `pdf`, `docx`,
tried in the order of the source regex. -/
def extMatch (cs : List Char) : Option Nat :=
  if hasPreCI ['t', 'x', 't'] cs then some 3
  else if hasPreCI ['p', 'd', 'f'] cs then some 3
  else if hasPreCI ['d', 'o', 'c', 'x'] cs then some 4
  else none

/-- Scan after an opening `[` for the lazy body `[^\]]*?\.(txt|pdf|docx)` of
alternative 1, then the closing lazy scan `[^\]]*?\]`.  A failure to reach a
`]` after a matched extension backtracks by absorbing the `.` into the lazy
body, exactly as Python's engine does. -/
def bracketExtAux : List Char → Option Nat
  | [] => none
  | c :: cs =>
    if c = ']' then none
    else if c = '.' then
      match extMatch cs with
      | some e =>
        match scanToRB (cs.drop e) with
        | some r => some (1 + e + r)
        | none => (bracketExtAux cs).map (· + 1)
      | none => (bracketExtAux cs).map (· + 1)
    else (bracketExtAux cs).map (· + 1)

/-- Alternative 1: `\[[^\]]*?\.(txt|pdf|docx)[^\]]*?\]`. -/
def bracketExtAlt : List Char → Option Nat
  | '[' :: rest => (bracketExtAux rest).map (· + 1)
  | _ => none

/-- Alternative 2: `\[[^\]]*?\]`. -/
def bracketAlt : List Char → Option Nat
  | '[' :: rest => (scanToRB rest).map (· + 1)
  | _ => none

/-- Alternative 3: `file-[A-Za-z0-9_-]+`. -/
def fileIdAlt (cs : List Char) : Option Nat :=
  if hasPreCI ['f', 'i', 'l', 'e', '-'] cs then
    let n := countWhile isFileIdChar (cs.drop 5)
    if n = 0 then none else some (5 + n)
  else none

/-- Alternative 4: `/mnt/data/[^\s]+`. -/
def mntAlt (cs : List Char) : Option Nat :=
  if hasPreCI ['/', 'm', 'n', 't', '/', 'd', 'a', 't', 'a', '/'] cs then
    let n := countWhile (fun c => !pyIsSpaceChar c) (cs.drop 10)
    if n = 0 then none else some (10 + n)
  else none

/-- Alternative 5: `†[A-Za-z0-9_]+†L\d+-L\d+` (the `L`s case-insensitive). -/
def citeAlt (cs : List Char) : Option Nat :=
  match cs with
  | '†' :: r1 =>
    let w := countWhile isCiteWordChar r1
    if w = 0 then none else
    match r1.drop w with
    | '†' :: r2 =>
      match r2 with
      | c1 :: r3 =>
        if Char.toLower c1 = 'l' then
          let d1 := countWhile Char.isDigit r3
          if d1 = 0 then none else
          match r3.drop d1 with
          | '-' :: r4 =>
            match r4 with
            | c2 :: r5 =>
              if Char.toLower c2 = 'l' then
                let d2 := countWhile Char.isDigit r5
                if d2 = 0 then none else some (w + d1 + d2 + 5)
              else none
            | [] => none
          | _ => none
        else none
      | [] => none
    | _ => none
  | _ => none

/-- Length of the `FROST_REGEX` match starting at the head of the list, the
five alternatives tried in source order. -/
def frostMatchLen (cs : List Char) : Option Nat :=
  match bracketExtAlt cs with
  | some n => some n
  | none =>
    match bracketAlt cs with
    | some n => some n
    | none =>
      match fileIdAlt cs with
      | some n => some n
      | none =>
        match mntAlt cs with
        | some n => some n
        | none => citeAlt cs

/-- Left-to-right non-overlapping substitution scan of `re.sub(FROST_REGEX,
'', text)`.  The fuel argument only bounds the recursion: every match
consumes at least one character, so fuel equal to the list length always
suffices and the fuel-exhausted branch is unreachable. -/
def frostScrubGo : Nat → List Char → List Char
  | 0, cs => cs
  | _ + 1, [] => []
  | fuel + 1, c :: rest =>
    match frostMatchLen (c :: rest) with
    | some n => frostScrubGo fuel (rest.drop (n - 1))
    | none => c :: frostScrubGo fuel rest

/-- Source `frost_scrub`: delete every `FROST_REGEX` match.  (The Python
`text or ""` guard against `None` is inapplicable here since the model input
is always a string.) -/
def frost_scrub (text : String) : String :=
  ⟨frostScrubGo text.data.length text.data⟩

/-- True when some suffix of the list carries a `FROST_REGEX` match, i.e. the
string contains one of the listed artifact patterns. -/
def containsFrostArtifact : List Char → Bool
  | [] => false
  | c :: cs => (frostMatchLen (c :: cs)).isSome || containsFrostArtifact cs

/-!
## Content tables and the name-token parser
-/

/-- Source `CANON_FILES` (paths relative to `BASE_DIR`, which only serves as
an opaque key prefix here). -/
def CANON_FILES : List (String × String) :=
  [("covenant", "Covenant of Drogvyn.txt"),
   ("world", "Drogvyn World Setting.txt"),
   ("flora", "Flora & Fauna & Mineral.txt"),
   ("commands", "Project Command Sheet.txt")]

/-- Source `NPC_FILES`. -/
def NPC_FILES : List (String × String) :=
  [("eirlys", "Eirlys_Character_Sheet.txt")]

/-- Source `SOULBOUND_FILES`: roster name ↦ (abilities path, character path). -/
def SOULBOUND_FILES : List (String × (String × String)) :=
  [("drocathmor", ("Drocathmor Abilities.txt", "Drocathmor Character Sheet.txt")),
   ("dreknoth", ("Dreknoth Abilities.txt", "Dreknoth Character Sheet.txt")),
   ("thayren", ("Thayren Abilities.txt", "Thayren Character Sheet.txt")),
   ("veydran", ("Veydran Abilities.txt", "Veydran Character Sheet.txt"))]

/-- Consumption of the optional opening quote `["“]?` of `NAME_TOKEN`. -/
def dropQuote (cs : List Char) : List Char :=
  match cs with
  | c :: t => if c = '"' || c = '“' then t else cs
  | [] => cs

/-- Consumption of the optional trailing mark `[\.\!\?"]?` of `NAME_TOKEN`. -/
def dropPunct (cs : List Char) : List Char :=
  match cs with
  | c :: t => if c = '.' || c = '!' || c = '?' || c = '"' then t else cs
  | [] => cs

/-- Match of `NAME_TOKEN = ^\s*["“]?([A-Za-z]+)[\.\!\?"]?\s*$` against a
character list, returning the captured letter group: leading whitespace, an
optional quote, at least one letter, an optional trailing mark, trailing
whitespace.  The optional pieces are deterministic despite regex
backtracking, because a quote or punctuation character can never double as a
letter or as whitespace. -/
def extractNameWord (cs : List Char) : Option (List Char) :=
  if (dropQuote (cs.dropWhile pyIsSpaceChar)).takeWhile pyIsAlpha = [] then none
  else if (dropPunct ((dropQuote (cs.dropWhile pyIsSpaceChar)).dropWhile pyIsAlpha)).all
      pyIsSpaceChar then
    some ((dropQuote (cs.dropWhile pyIsSpaceChar)).takeWhile pyIsAlpha)
  else none

/-- Source `parse_soulbound_token`: the lowered `NAME_TOKEN` capture when it
is a key of `SOULBOUND_FILES`, else `None`. -/
def parse_soulbound_token (s : String) : Option String :=
  match extractNameWord s.data with
  | none => none
  | some w =>
    let name : String := ⟨w.map Char.toLower⟩
    if (SOULBOUND_FILES.lookup name).isSome then some name else none

/-!
## Session record, store and text source
-/

/-- The persisted session record (the dictionary produced by `load_memory`). -/
structure Memory where
  journal : List String
  scars : List String
  soulbound : Option String
  paused : Bool
  rebind_count : Int
  last_rebind_at : Option String
deriving DecidableEq, Repr

/-- Defaults returned by `load_memory` when no persisted state exists. -/
def memoryDefault : Memory :=
  { journal := [], scars := [], soulbound := none, paused := false,
    rebind_count := 0, last_rebind_at := none }

/-- Outcome of looking a path up in the file system: missing, readable with
some text, or present but failing to read (the `except Exception` path of
`load_file_text`). -/
inductive FileOutcome where
  | absent
  | readable (text : String)
  | unreadable
deriving DecidableEq, Repr

/-- The text source: a pure map from paths to file outcomes. -/
def FS : Type := String → FileOutcome

/-- File system with no files, used to instantiate theorems. -/
def fsEmpty : FS := fun _ => FileOutcome.absent

/-- Source `load_file_text`: themed placeholder for a missing file, themed
failure text for an unreadable one, scrubbed content otherwise.  Totality of
this function is the model of "never raises to the caller". -/
def load_file_text (fs : FS) (path : String) (label : String) : String :=
  match fs path with
  | FileOutcome.absent => "(The frost remembers no " ++ label ++ " here.)"
  | FileOutcome.readable text => frost_scrub text
  | FileOutcome.unreadable => "(The frost cannot read the " ++ label ++ ".)"

/-!
## The turn handler (`saga_turn`)
-/

/-- Sanitization applied to the raw request input:
`frost_scrub((data.get("input") or "").strip())`. -/
def sanitizeInput (raw : String) : String :=
  frost_scrub (pyStrip raw)

/-- Journal append of the sanitized input when non-empty (lines 131-132). -/
def memAfterAppend (mem : Memory) (pin : String) : Memory :=
  if pin = "" then mem else { mem with journal := mem.journal ++ [pin] }

/-- The `save_memory` call paired with the journal append (line 133): one
snapshot when the input was non-empty, none otherwise. -/
def appendSaves (mem : Memory) (pin : String) : List Memory :=
  if pin = "" then [] else [memAfterAppend mem pin]

/-- Pause-gate condition (line 135): paused, and the lowered input does not
start with `resume`/`resume...`/`begin`/`begin...`. -/
def pauseGateFires (mem : Memory) (pin : String) : Bool :=
  mem.paused &&
    !(strHasPre "resume" (pyLower pin) || strHasPre "resume..." (pyLower pin) ||
      strHasPre "begin" (pyLower pin) || strHasPre "begin..." (pyLower pin))

/-- Fixed help text of the `commands` branch. -/
def commandsHelp : String :=
  "Whisper:\n• Drocathmor. / Dreknoth. / Thayren. / Veydran.\n• begin... / pause... / resume...\n• journal...\n• abilities \x7bName\x7d\n• character \x7bName\x7d\n• covenant / world / flora / commands\n• npc eirlys"

/-- Result of routing one (already appended-to) turn: the response, the
session record after the branch, and the snapshots saved by the branch. -/
structure RouteOut where
  response : String
  mem : Memory
  saves : List Memory
deriving Repr

/-- Soulbound-selection branch of `saga_turn` (lines 138-148), entered when
`parse_soulbound_token` matched the input. -/
def routeToken (mem : Memory) (token : String) : RouteOut :=
  match mem.soulbound with
  | none =>
    let mem2 := { mem with soulbound := some (pyCapitalize token) }
    ⟨frost_scrub ("The frostline seals: " ++ pyCapitalize token ++
        " rises as the soulbound.\nAll other names fade beneath the ice."),
      mem2, [mem2]⟩
  | some sb =>
    if pyLower sb = token then
      ⟨frost_scrub ("The frost remembers: " ++ pyCapitalize token ++
          " already walks alone."), mem, []⟩
    else
      ⟨frost_scrub ("The frost rejects this name. The soulbound is already "
          ++ sb ++ "."), mem, []⟩

/-- Command ladder of `saga_turn` (lines 150-215), entered when the input is
not a soulbound name token: begin/pause/resume, canon, npc, journal, commands,
the gated abilities/character lookups, and the echo fallback, in source
order. -/
def routeCommands (fs : FS) (now : String) (mem : Memory) (pin : String) : RouteOut :=
      if pyLower pin ∈ ["begin", "begin..."] then
        let mem2 := { mem with rebind_count := mem.rebind_count + 1,
                               last_rebind_at := some now, paused := false }
        ⟨frost_scrub "The frost re-reads the Covenant. Memory realigns. The hunt begins.",
          mem2, [mem2]⟩
      else if pyLower pin ∈ ["pause", "pause..."] then
        let mem2 := { mem with paused := true }
        ⟨frost_scrub "The frost holds. Breath is stilled until you whisper: resume...",
          mem2, [mem2]⟩
      else if pyLower pin ∈ ["resume", "resume..."] then
        let mem2 := { mem with paused := false }
        ⟨frost_scrub "Breath returns. The frost moves again.", mem2, [mem2]⟩
      else
        match CANON_FILES.lookup (pyLower pin) with
        | some path => ⟨frost_scrub (load_file_text fs path (pyLower pin)), mem, []⟩
        | none =>
          if strHasPre "npc " (pyLower pin) then
            match NPC_FILES.lookup (pyStrip (afterFirstSpace (pyLower pin))) with
            | some path =>
              ⟨frost_scrub (load_file_text fs path
                  ("NPC " ++ pyStrip (afterFirstSpace (pyLower pin)))), mem, []⟩
            | none =>
              ⟨frost_scrub ("The frost remembers no NPC named " ++
                  pyStrip (afterFirstSpace (pyLower pin)) ++ "."), mem, []⟩
          else if strHasPre "journal" (pyLower pin) then
            ⟨frost_scrub (pyOr (pyJoin "\n" mem.journal)
                "(The frost has kept no words yet.)"), mem, []⟩
          else if strHasPre "commands" (pyLower pin) then
            ⟨frost_scrub commandsHelp, mem, []⟩
          else if strHasPre "abilities " (pyLower pin) then
            match mem.soulbound with
            | none => ⟨frost_scrub "The frost waits. No soul has been bound yet.", mem, []⟩
            | some sb =>
              match parse_soulbound_token (afterFirstSpace pin) with
              | some tok =>
                if pyLower sb = tok then
                  ⟨frost_scrub (load_file_text fs
                      ((SOULBOUND_FILES.lookup tok).getD ("", "")).1 "abilities"), mem, []⟩
                else
                  ⟨frost_scrub ("The frost denies you. Only " ++ sb ++
                      " may be remembered."), mem, []⟩
              | none =>
                ⟨frost_scrub ("The frost denies you. Only " ++ sb ++
                    " may be remembered."), mem, []⟩
          else if strHasPre "character " (pyLower pin) then
            match mem.soulbound with
            | none => ⟨frost_scrub "The frost waits. No soul has been bound yet.", mem, []⟩
            | some sb =>
              match parse_soulbound_token (afterFirstSpace pin) with
              | some tok =>
                if pyLower sb = tok then
                  ⟨frost_scrub (load_file_text fs
                      ((SOULBOUND_FILES.lookup tok).getD ("", "")).2 "character sheet"),
                    mem, []⟩
                else
                  ⟨frost_scrub ("The frost denies you. Only " ++ sb ++
                      " may walk here."), mem, []⟩
              | none =>
                ⟨frost_scrub ("The frost denies you. Only " ++ sb ++
                    " may walk here."), mem, []⟩
          else
            ⟨frost_scrub ("The frost remembers: " ++ pin), mem, []⟩

/-- Dispatch of `saga_turn` after the journal append: the pause gate (line
135), then the soulbound-token branch, then the command ladder.  `mem` is the
record after the unconditional append; each `save_memory` call appends the
snapshot it writes. -/
def routeTurn (fs : FS) (now : String) (mem : Memory) (pin : String) : RouteOut :=
  if pauseGateFires mem pin then
    ⟨frost_scrub "The frost holds. (paused) Whisper: resume... or begin...", mem, []⟩
  else
    match parse_soulbound_token pin with
    | some token => routeToken mem token
    | none => routeCommands fs now mem pin

/-- Result of one `POST /saga` turn: the response string, the final session
record, the number of `load_memory` calls, and each `save_memory` snapshot in
call order. -/
structure TurnResult where
  response : String
  mem : Memory
  loads : Nat
  saves : List Memory
deriving Repr

/-- Source `saga_turn`: sanitize the input, load the session once, append the
non-empty sanitized input to the journal (saving immediately), then route. -/
def sagaTurn (fs : FS) (now : String) (store : Memory) (rawInput : String) : TurnResult :=
  let pin := sanitizeInput rawInput
  let mem1 := memAfterAppend store pin
  let r := routeTurn fs now mem1 pin
  ⟨r.response, r.mem, 1, appendSaves store pin ++ r.saves⟩

/-- A sequence of turns, threading the session record; each element gives the
timestamp and the raw input of one turn. -/
def runTurns (fs : FS) : Memory → List (String × String) → Memory
  | mem, [] => mem
  | mem, (now, raw) :: rest => runTurns fs (sagaTurn fs now mem raw).mem rest

/-!
## Theorems

### C1 — scrubber idempotence
-/

/-- When no suffix of the list matches `FROST_REGEX`, the substitution scan
copies the list unchanged, for any fuel. -/
theorem frostScrubGo_of_noArtifact :
    ∀ (fuel : Nat) (cs : List Char), containsFrostArtifact cs = false →
      frostScrubGo fuel cs = cs := by
  intro fuel
  induction fuel with
  | zero => intro cs _; rfl
  | succ n ih =>
    intro cs h
    cases cs with
    | nil => rfl
    | cons c rest =>
      have h' : (frostMatchLen (c :: rest)).isSome = false ∧
          containsFrostArtifact rest = false := by
        simpa [containsFrostArtifact] using h
      have hm : frostMatchLen (c :: rest) = none :=
        Option.not_isSome_iff_eq_none.mp (by simp [h'.1])
      simp [frostScrubGo, hm, ih rest h'.2]

/-- Scrubbing a string that contains no artifact pattern is the identity. -/
theorem frost_scrub_of_noArtifact (s : String)
    (h : containsFrostArtifact s.data = false) : frost_scrub s = s := by
  unfold frost_scrub
  rw [frostScrubGo_of_noArtifact _ _ h]

/-- C1 (corrected): `frost_scrub` leaves a string containing none of the
listed artifact patterns unchanged, and is consequently idempotent on every
input whose scrubbed form is again artifact-free; full idempotence fails (see
the counterexample). -/
theorem frost_scrub_clean_text_noop (s : String) :
    (containsFrostArtifact s.data = false → frost_scrub s = s) ∧
    (containsFrostArtifact (frost_scrub s).data = false →
      frost_scrub (frost_scrub s) = frost_scrub s) := by
  refine ⟨fun h => frost_scrub_of_noArtifact s h,
          fun h => frost_scrub_of_noArtifact (frost_scrub s) h⟩

/-- Witness for `frost_scrub_clean_text_noop` at a concrete clean string. -/
theorem frost_scrub_clean_text_noop_witness :
    frost_scrub "The frost holds." = "The frost holds." :=
  (frost_scrub_clean_text_noop "The frost holds.").1 (by decide)

/-- C1 counterexample: deleting the bracketed tag from `"fil[x]e-abc"` splices
the flanks into the new artifact `"file-abc"`, which a second scrub deletes,
so `frost_scrub` is not idempotent. -/
theorem frost_scrub_not_idempotent :
    frost_scrub (frost_scrub "fil[x]e-abc") ≠ frost_scrub "fil[x]e-abc" := by
  decide

/-!
### Frame lemmas over the dispatch ladder
-/

/-- The soulbound-selection branch never touches the journal. -/
theorem routeToken_journal (mem : Memory) (token : String) :
    (routeToken mem token).mem.journal = mem.journal := by
  unfold routeToken
  repeat' split
  all_goals rfl

/-- The command ladder never touches the journal. -/
theorem routeCommands_journal (fs : FS) (now : String) (mem : Memory) (pin : String) :
    (routeCommands fs now mem pin).mem.journal = mem.journal := by
  unfold routeCommands
  repeat' split
  all_goals rfl

/-- No routing branch touches the journal. -/
theorem routeTurn_journal (fs : FS) (now : String) (mem : Memory) (pin : String) :
    (routeTurn fs now mem pin).mem.journal = mem.journal := by
  unfold routeTurn
  repeat' split
  · rfl
  · exact routeToken_journal ..
  · exact routeCommands_journal ..

/-- The soulbound-selection branch never touches `scars`. -/
theorem routeToken_scars (mem : Memory) (token : String) :
    (routeToken mem token).mem.scars = mem.scars := by
  unfold routeToken
  repeat' split
  all_goals rfl

/-- The command ladder never touches `scars`. -/
theorem routeCommands_scars (fs : FS) (now : String) (mem : Memory) (pin : String) :
    (routeCommands fs now mem pin).mem.scars = mem.scars := by
  unfold routeCommands
  repeat' split
  all_goals rfl

/-- No routing branch touches the reserved `scars` field. -/
theorem routeTurn_scars (fs : FS) (now : String) (mem : Memory) (pin : String) :
    (routeTurn fs now mem pin).mem.scars = mem.scars := by
  unfold routeTurn
  repeat' split
  · rfl
  · exact routeToken_scars ..
  · exact routeCommands_scars ..

/-- The soulbound-selection branch calls `save_memory` at most once. -/
theorem routeToken_saves_len (mem : Memory) (token : String) :
    (routeToken mem token).saves.length ≤ 1 := by
  unfold routeToken
  repeat' split
  all_goals simp

/-- The command ladder calls `save_memory` at most once. -/
theorem routeCommands_saves_len (fs : FS) (now : String) (mem : Memory) (pin : String) :
    (routeCommands fs now mem pin).saves.length ≤ 1 := by
  unfold routeCommands
  repeat' split
  all_goals simp

/-- Each routing branch calls `save_memory` at most once. -/
theorem routeTurn_saves_len (fs : FS) (now : String) (mem : Memory) (pin : String) :
    (routeTurn fs now mem pin).saves.length ≤ 1 := by
  unfold routeTurn
  repeat' split
  · simp
  · exact routeToken_saves_len ..
  · exact routeCommands_saves_len ..

/-- A non-null soulbound survives the selection branch unchanged. -/
theorem routeToken_soulbound_some (mem : Memory) (token : String) (s : String)
    (h : mem.soulbound = some s) :
    (routeToken mem token).mem.soulbound = some s := by
  unfold routeToken
  repeat' split
  all_goals simp_all

/-- The command ladder never touches `soulbound`. -/
theorem routeCommands_soulbound (fs : FS) (now : String) (mem : Memory) (pin : String) :
    (routeCommands fs now mem pin).mem.soulbound = mem.soulbound := by
  unfold routeCommands
  repeat' split
  all_goals rfl

/-- A non-null soulbound survives every routing branch unchanged. -/
theorem routeTurn_soulbound_some (fs : FS) (now : String) (mem : Memory)
    (pin : String) (s : String) (h : mem.soulbound = some s) :
    (routeTurn fs now mem pin).mem.soulbound = some s := by
  unfold routeTurn
  repeat' split
  · exact h
  · exact routeToken_soulbound_some _ _ _ h
  · rw [routeCommands_soulbound]; exact h

/-- The soulbound-selection branch never touches `rebind_count`. -/
theorem routeToken_rebind (mem : Memory) (token : String) :
    (routeToken mem token).mem.rebind_count = mem.rebind_count := by
  unfold routeToken
  repeat' split
  all_goals rfl

/-- The command ladder never decrements `rebind_count`. -/
theorem routeCommands_rebind_mono (fs : FS) (now : String) (mem : Memory) (pin : String) :
    mem.rebind_count ≤ (routeCommands fs now mem pin).mem.rebind_count := by
  unfold routeCommands
  repeat' split
  all_goals simp

/-- No routing branch ever decrements `rebind_count`. -/
theorem routeTurn_rebind_mono (fs : FS) (now : String) (mem : Memory) (pin : String) :
    mem.rebind_count ≤ (routeTurn fs now mem pin).mem.rebind_count := by
  unfold routeTurn
  repeat' split
  · exact le_refl _
  · rw [routeToken_rebind]
  · exact routeCommands_rebind_mono ..

/-!
### C2 — store traffic per turn
-/

/-- C2 (corrected): every turn performs exactly one session load and at most
two saves — the journal-append save (only when the sanitized input is
non-empty) plus at most one save from a mutating branch; an empty-input turn
performs at most one save. -/
theorem saga_store_traffic (fs : FS) (now : String) (mem : Memory) (raw : String) :
    (sagaTurn fs now mem raw).loads = 1 ∧
    (sagaTurn fs now mem raw).saves.length ≤ 2 ∧
    (sanitizeInput raw = "" → (sagaTurn fs now mem raw).saves.length ≤ 1) := by
  refine ⟨rfl, ?_, ?_⟩
  · show (appendSaves mem (sanitizeInput raw) ++ _).length ≤ 2
    rw [List.length_append]
    have h1 : (appendSaves mem (sanitizeInput raw)).length ≤ 1 := by
      unfold appendSaves; split <;> simp
    have h2 := routeTurn_saves_len fs now (memAfterAppend mem (sanitizeInput raw))
      (sanitizeInput raw)
    omega
  · intro h
    show (appendSaves mem (sanitizeInput raw) ++ _).length ≤ 1
    rw [List.length_append]
    have h1 : (appendSaves mem (sanitizeInput raw)).length = 0 := by
      unfold appendSaves; rw [if_pos h]; rfl
    have h2 := routeTurn_saves_len fs now (memAfterAppend mem (sanitizeInput raw))
      (sanitizeInput raw)
    omega

/-- Witness for `saga_store_traffic` at a concrete empty-input turn. -/
theorem saga_store_traffic_witness :
    (sagaTurn fsEmpty "t0" memoryDefault "").loads = 1 ∧
    (sagaTurn fsEmpty "t0" memoryDefault "").saves.length ≤ 1 :=
  ⟨(saga_store_traffic fsEmpty "t0" memoryDefault "").1,
   (saga_store_traffic fsEmpty "t0" memoryDefault "").2.2 (by decide)⟩

/-- C2 counterexample: a `begin` turn saves twice — once for the journal
append and once in the begin branch — refuting "at most one save per turn". -/
theorem saga_two_saves_on_begin :
    ¬ (sagaTurn fsEmpty "t0" memoryDefault "begin").saves.length ≤ 1 := by
  decide

/-!
### C3 — journal growth
-/

/-- Journal shape after a single turn: unchanged on empty sanitized input,
one appended entry (the sanitized input) otherwise. -/
theorem sagaTurn_journal (fs : FS) (now : String) (mem : Memory) (raw : String) :
    (sagaTurn fs now mem raw).mem.journal =
      if sanitizeInput raw = "" then mem.journal
      else mem.journal ++ [sanitizeInput raw] := by
  show (routeTurn _ _ (memAfterAppend mem (sanitizeInput raw)) _).mem.journal = _
  rw [routeTurn_journal]
  unfold memAfterAppend
  split
  · rfl
  · rfl

/-- C3 (confirmed): over any sequence of turns the journal is exactly the
initial journal followed by the sanitized inputs of the turns whose sanitized
input is non-empty, in order — so it only grows, each non-empty-input turn
appends exactly one entry (even when the pause gate later rejects the turn,
since the append precedes the gate), and its length from a fresh session
equals the number of such turns. -/
theorem saga_journal_characterization (fs : FS) (turns : List (String × String)) :
    (∀ mem : Memory, (runTurns fs mem turns).journal =
      mem.journal ++ (turns.map (fun t => sanitizeInput t.2)).filter
        (fun s => !(s == ""))) ∧
    (runTurns fs memoryDefault turns).journal.length =
      ((turns.map (fun t => sanitizeInput t.2)).filter (fun s => !(s == ""))).length := by
  have main : ∀ mem : Memory, (runTurns fs mem turns).journal =
      mem.journal ++ (turns.map (fun t => sanitizeInput t.2)).filter
        (fun s => !(s == "")) := by
    induction turns with
    | nil => intro mem; simp [runTurns]
    | cons t rest ih =>
      intro mem
      obtain ⟨now, raw⟩ := t
      show (runTurns fs (sagaTurn fs now mem raw).mem rest).journal = _
      rw [ih, sagaTurn_journal]
      by_cases h : sanitizeInput raw = ""
      · simp [h]
      · simp [h]
  refine ⟨main, ?_⟩
  rw [main memoryDefault]
  simp [memoryDefault]

/-!
### Character and prefix utilities
-/

/-- Lowering fixes whitespace characters. -/
theorem space_toLower (c : Char) (h : pyIsSpaceChar c = true) : Char.toLower c = c := by
  unfold pyIsSpaceChar at h
  simp only [Bool.or_eq_true, beq_iff_eq] at h
  rcases h with ((((h | h) | h) | h) | h) | h <;> subst h <;> decide

/-- Whitespace characters are not alphabetic. -/
theorem space_not_alpha (c : Char) (h : pyIsSpaceChar c = true) : pyIsAlpha c = false := by
  unfold pyIsSpaceChar at h
  simp only [Bool.or_eq_true, beq_iff_eq] at h
  rcases h with ((((h | h) | h) | h) | h) | h <;> subst h <;> decide

/-- A matched non-empty prefix determines the head of the subject. -/
theorem hasPre_head (a : Char) (as s : List Char) (h : hasPre (a :: as) s = true) :
    s.head? = some a := by
  cases s with
  | nil => simp [hasPre] at h
  | cons c cs =>
    simp only [hasPre, Bool.and_eq_true, beq_iff_eq] at h
    simp [h.1]

/-- A matched concatenated prefix matches its left part. -/
theorem hasPre_append_left (p q s : List Char) (h : hasPre (p ++ q) s = true) :
    hasPre p s = true := by
  induction p generalizing s with
  | nil => rfl
  | cons a as ih =>
    cases s with
    | nil => simp [hasPre] at h
    | cons c cs =>
      simp only [List.cons_append, hasPre, Bool.and_eq_true] at h ⊢
      exact ⟨h.1, ih cs h.2⟩

/-- Two prefixes of one subject are nested: the shorter matches the longer. -/
theorem hasPre_of_hasPre_le (a b s : List Char) (ha : hasPre a s = true)
    (hb : hasPre b s = true) (hlen : a.length ≤ b.length) : hasPre a b = true := by
  induction a generalizing b s with
  | nil => rfl
  | cons x xs ih =>
    cases s with
    | nil => simp [hasPre] at ha
    | cons c cs =>
      cases b with
      | nil => simp at hlen
      | cons y ys =>
        simp only [hasPre, Bool.and_eq_true, beq_iff_eq] at ha hb ⊢
        exact ⟨ha.1.trans hb.1.symm, ih ys cs ha.2 hb.2 (by simpa using hlen)⟩

@[simp] theorem memAfterAppend_soulbound (mem : Memory) (pin : String) :
    (memAfterAppend mem pin).soulbound = mem.soulbound := by
  unfold memAfterAppend; split <;> rfl

@[simp] theorem memAfterAppend_paused (mem : Memory) (pin : String) :
    (memAfterAppend mem pin).paused = mem.paused := by
  unfold memAfterAppend; split <;> rfl

@[simp] theorem memAfterAppend_rebind (mem : Memory) (pin : String) :
    (memAfterAppend mem pin).rebind_count = mem.rebind_count := by
  unfold memAfterAppend; split <;> rfl

@[simp] theorem memAfterAppend_last (mem : Memory) (pin : String) :
    (memAfterAppend mem pin).last_rebind_at = mem.last_rebind_at := by
  unfold memAfterAppend; split <;> rfl

@[simp] theorem memAfterAppend_scars (mem : Memory) (pin : String) :
    (memAfterAppend mem pin).scars = mem.scars := by
  unfold memAfterAppend; split <;> rfl

/-- The pause gate reads only `paused`, which the journal append preserves. -/
theorem pauseGate_append (mem : Memory) (pin : String) :
    pauseGateFires (memAfterAppend mem pin) pin = pauseGateFires mem pin := by
  unfold pauseGateFires
  rw [memAfterAppend_paused]

/-- Equality of all session fields except the journal: the "no mutation other
than the append" frame property. -/
def nonJournalEq (a b : Memory) : Prop :=
  a.soulbound = b.soulbound ∧ a.paused = b.paused ∧ a.rebind_count = b.rebind_count ∧
  a.last_rebind_at = b.last_rebind_at ∧ a.scars = b.scars

/-!
### C9 — themed degradation of content lookups
-/

/-- C9 (confirmed): a lookup whose backing file is absent yields the themed
"remembers no" placeholder, a failing read yields the themed "cannot read"
text, and a successful read yields the scrubbed content; `load_file_text` is
total, which is the model of "never raises to the caller". -/
theorem load_file_text_degrades (fs : FS) (path label : String) :
    (fs path = FileOutcome.absent →
      load_file_text fs path label = "(The frost remembers no " ++ label ++ " here.)") ∧
    (fs path = FileOutcome.unreadable →
      load_file_text fs path label = "(The frost cannot read the " ++ label ++ ".)") ∧
    (∀ text, fs path = FileOutcome.readable text →
      load_file_text fs path label = frost_scrub text) := by
  refine ⟨fun h => ?_, fun h => ?_, fun text h => ?_⟩ <;> unfold load_file_text <;> rw [h]

/-- Witness for `load_file_text_degrades` on the empty file system. -/
theorem load_file_text_degrades_witness :
    load_file_text fsEmpty "Covenant of Drogvyn.txt" "covenant" =
      "(The frost remembers no covenant here.)" :=
  (load_file_text_degrades fsEmpty "Covenant of Drogvyn.txt" "covenant").1 rfl

/-!
### Structure of `NAME_TOKEN` matches
-/

/-- Characters retained by `takeWhile` satisfy the predicate. -/
theorem all_takeWhile (p : Char → Bool) (l : List Char) :
    (l.takeWhile p).all p = true := by
  induction l with
  | nil => rfl
  | cons c cs ih =>
    by_cases h : p c
    · simp [List.takeWhile, h, ih]
    · simp [List.takeWhile, h]

/-- Every list splits as its optional-quote part plus `dropQuote`. -/
theorem dropQuote_decomp (l : List Char) :
    ∃ q, (q = [] ∨ q = ['"'] ∨ q = ['“']) ∧ l = q ++ dropQuote l := by
  cases l with
  | nil => exact ⟨[], Or.inl rfl, rfl⟩
  | cons c t =>
    by_cases h : c = '"' || c = '“'
    · have h' : c = '"' ∨ c = '“' := by simpa using h
      rcases h' with h1 | h1
      · subst h1
        exact ⟨['"'], Or.inr (Or.inl rfl), by simp [dropQuote]⟩
      · subst h1
        exact ⟨['“'], Or.inr (Or.inr rfl), by simp [dropQuote]⟩
    · exact ⟨[], Or.inl rfl, by simp only [dropQuote, if_neg h]; rfl⟩

/-- Every list splits as its optional-punctuation part plus `dropPunct`. -/
theorem dropPunct_decomp (l : List Char) :
    ∃ p, (p = [] ∨ p = ['.'] ∨ p = ['!'] ∨ p = ['?'] ∨ p = ['"']) ∧
      l = p ++ dropPunct l := by
  cases l with
  | nil => exact ⟨[], Or.inl rfl, rfl⟩
  | cons c t =>
    by_cases h : c = '.' || c = '!' || c = '?' || c = '"'
    · have h' : c = '.' ∨ c = '!' ∨ c = '?' ∨ c = '"' := by
        have := by simpa using h
        tauto
      refine ⟨[c], ?_, by simp only [dropPunct, if_pos h]; rfl⟩
      rcases h' with h' | h' | h' | h' <;> subst h' <;> tauto
    · exact ⟨[], Or.inl rfl, by simp only [dropPunct, if_neg h]; rfl⟩

/-- A successful `NAME_TOKEN` match decomposes the input into leading
whitespace, an optional quote, the non-empty all-letter word, an optional
trailing mark, and trailing whitespace. -/
theorem extractNameWord_decomp (cs : List Char) (w : List Char)
    (h : extractNameWord cs = some w) :
    ∃ sp1 q p sp2,
      cs = sp1 ++ q ++ w ++ p ++ sp2 ∧
      sp1.all pyIsSpaceChar = true ∧
      (q = [] ∨ q = ['"'] ∨ q = ['“']) ∧
      w ≠ [] ∧ w.all pyIsAlpha = true ∧
      (p = [] ∨ p = ['.'] ∨ p = ['!'] ∨ p = ['?'] ∨ p = ['"']) ∧
      sp2.all pyIsSpaceChar = true := by
  unfold extractNameWord at h
  by_cases h1 : (dropQuote (cs.dropWhile pyIsSpaceChar)).takeWhile pyIsAlpha = []
  · rw [if_pos h1] at h; exact absurd h (by simp)
  · rw [if_neg h1] at h
    by_cases h2 : (dropPunct ((dropQuote (cs.dropWhile pyIsSpaceChar)).dropWhile
        pyIsAlpha)).all pyIsSpaceChar
    · rw [if_pos h2] at h
      obtain rfl : (dropQuote (cs.dropWhile pyIsSpaceChar)).takeWhile pyIsAlpha = w :=
        Option.some.inj h
      obtain ⟨q, hq, hq2⟩ := dropQuote_decomp (cs.dropWhile pyIsSpaceChar)
      obtain ⟨p, hp, hp2⟩ := dropPunct_decomp
        ((dropQuote (cs.dropWhile pyIsSpaceChar)).dropWhile pyIsAlpha)
      refine ⟨cs.takeWhile pyIsSpaceChar, q,
        p, dropPunct ((dropQuote (cs.dropWhile pyIsSpaceChar)).dropWhile pyIsAlpha),
        ?_, all_takeWhile _ _, hq, h1, all_takeWhile _ _, hp, h2⟩
      have eB : dropQuote (cs.dropWhile pyIsSpaceChar)
          = (dropQuote (cs.dropWhile pyIsSpaceChar)).takeWhile pyIsAlpha ++
            (p ++ dropPunct ((dropQuote (cs.dropWhile pyIsSpaceChar)).dropWhile
              pyIsAlpha)) := by
        rw [← hp2, List.takeWhile_append_dropWhile]
      have e2 : cs.dropWhile pyIsSpaceChar
          = q ++ ((dropQuote (cs.dropWhile pyIsSpaceChar)).takeWhile pyIsAlpha ++
            (p ++ dropPunct ((dropQuote (cs.dropWhile pyIsSpaceChar)).dropWhile
              pyIsAlpha))) :=
        hq2.trans (congrArg (q ++ ·) eB)
      have e3 : cs = cs.takeWhile pyIsSpaceChar ++
          (q ++ ((dropQuote (cs.dropWhile pyIsSpaceChar)).takeWhile pyIsAlpha ++
            (p ++ dropPunct ((dropQuote (cs.dropWhile pyIsSpaceChar)).dropWhile
              pyIsAlpha)))) :=
        (List.takeWhile_append_dropWhile ..).symm.trans
          (congrArg (cs.takeWhile pyIsSpaceChar ++ ·) e2)
      simpa [List.append_assoc] using e3
    · rw [if_neg h2] at h; exact absurd h (by simp)

/-- Elimination form of `parse_soulbound_token`: a successful parse produces
the lowered `NAME_TOKEN` capture, and the result is a roster key. -/
theorem parse_some_elim (s : String) (t : String)
    (h : parse_soulbound_token s = some t) :
    ∃ w, extractNameWord s.data = some w ∧ t = ⟨w.map Char.toLower⟩ ∧
      (SOULBOUND_FILES.lookup t).isSome = true := by
  unfold parse_soulbound_token at h
  cases he : extractNameWord s.data with
  | none => rw [he] at h; exact absurd h (by simp)
  | some w =>
    rw [he] at h
    dsimp only [] at h
    by_cases hl : (SOULBOUND_FILES.lookup (⟨w.map Char.toLower⟩ : String)).isSome = true
    · rw [if_pos hl] at h
      have ht := (Option.some.inj h).symm
      exact ⟨w, rfl, ht, ht ▸ hl⟩
    · rw [if_neg hl] at h
      exact absurd h (by simp)

/-- The roster keys are exactly the four character names. -/
theorem roster_cases (t : String) (h : (SOULBOUND_FILES.lookup t).isSome = true) :
    t = "drocathmor" ∨ t = "dreknoth" ∨ t = "thayren" ∨ t = "veydran" := by
  by_cases h1 : t = "drocathmor"
  · exact Or.inl h1
  by_cases h2 : t = "dreknoth"
  · exact Or.inr (Or.inl h2)
  by_cases h3 : t = "thayren"
  · exact Or.inr (Or.inr (Or.inl h3))
  by_cases h4 : t = "veydran"
  · exact Or.inr (Or.inr (Or.inr h4))
  exfalso
  have e1 : (t == ("drocathmor" : String)) = false := beq_eq_false_iff_ne.mpr h1
  have e2 : (t == ("dreknoth" : String)) = false := beq_eq_false_iff_ne.mpr h2
  have e3 : (t == ("thayren" : String)) = false := beq_eq_false_iff_ne.mpr h3
  have e4 : (t == ("veydran" : String)) = false := beq_eq_false_iff_ne.mpr h4
  simp [SOULBOUND_FILES, List.lookup, e1, e2, e3, e4] at h

/-- Negative parse result forced by the head of the lowered input: when the
first character (after lowering) is not whitespace, not an opening quote, and
not the initial of any roster name, `parse_soulbound_token` returns `None`. -/
theorem parse_none_of_head (s : String) (c : Char)
    (hc : (pyLower s).data.head? = some c)
    (hsp : pyIsSpaceChar c = false) (hq1 : c ≠ '"') (hq2 : c ≠ '“')
    (hd : c ≠ 'd') (ht : c ≠ 't') (hv : c ≠ 'v') :
    parse_soulbound_token s = none := by
  cases hp : parse_soulbound_token s with
  | none => rfl
  | some t =>
    exfalso
    obtain ⟨w, hew, htw, hros⟩ := parse_some_elim s t hp
    obtain ⟨sp1, q, p, sp2, hsplit, hsp1, hq, hwne, hwal, hpn, hsp2⟩ :=
      extractNameWord_decomp s.data w hew
    have hlow : (pyLower s).data = sp1.map Char.toLower ++ (q.map Char.toLower ++
        (w.map Char.toLower ++ (p.map Char.toLower ++ sp2.map Char.toLower))) := by
      show s.data.map Char.toLower = _
      rw [hsplit]; simp [List.append_assoc]
    cases sp1 with
    | cons a sp1' =>
      have ha : pyIsSpaceChar a = true := by
        rw [List.all_cons, Bool.and_eq_true] at hsp1; exact hsp1.1
      rw [hlow] at hc
      rw [List.map_cons, List.cons_append, List.head?_cons] at hc
      have hca : c = a := by
        have := Option.some.inj hc
        rw [space_toLower a ha] at this
        exact this.symm
      rw [hca, ha] at hsp
      exact Bool.noConfusion hsp
    | nil =>
      rcases hq with hq' | hq' | hq'
      · subst hq'
        cases w with
        | nil => exact hwne rfl
        | cons w0 w' =>
          rw [hlow] at hc
          simp only [List.map_nil, List.nil_append, List.map_cons,
            List.cons_append, List.head?_cons] at hc
          have hcw : c = Char.toLower w0 := (Option.some.inj hc).symm
          have htd : t.data = Char.toLower w0 :: w'.map Char.toLower := by
            rw [htw]; rfl
          rcases roster_cases t hros with hr | hr | hr | hr <;> rw [hr] at htd
          · injection htd.symm with h1 _
            exact hd (hcw.trans h1)
          · injection htd.symm with h1 _
            exact hd (hcw.trans h1)
          · injection htd.symm with h1 _
            exact ht (hcw.trans h1)
          · injection htd.symm with h1 _
            exact hv (hcw.trans h1)
      · subst hq'
        rw [hlow] at hc
        simp only [List.map_nil, List.nil_append, List.map_cons,
          List.cons_append, List.head?_cons] at hc
        have : c = Char.toLower '"' := (Option.some.inj hc).symm
        exact hq1 (by rw [this]; decide)
      · subst hq'
        rw [hlow] at hc
        simp only [List.map_nil, List.nil_append, List.map_cons,
          List.cons_append, List.head?_cons] at hc
        have : c = Char.toLower '“' := (Option.some.inj hc).symm
        exact hq2 (by rw [this]; decide)

/-!
### Branch-selection equations
-/

@[simp] theorem sagaTurn_response (fs : FS) (now : String) (store : Memory) (raw : String) :
    (sagaTurn fs now store raw).response =
      (routeTurn fs now (memAfterAppend store (sanitizeInput raw))
        (sanitizeInput raw)).response := rfl

@[simp] theorem sagaTurn_mem (fs : FS) (now : String) (store : Memory) (raw : String) :
    (sagaTurn fs now store raw).mem =
      (routeTurn fs now (memAfterAppend store (sanitizeInput raw))
        (sanitizeInput raw)).mem := rfl

/-- A firing pause gate short-circuits the whole dispatch. -/
theorem routeTurn_gated (fs : FS) (now : String) (mem : Memory) (pin : String)
    (h : pauseGateFires mem pin = true) :
    routeTurn fs now mem pin =
      ⟨frost_scrub "The frost holds. (paused) Whisper: resume... or begin...", mem, []⟩ := by
  unfold routeTurn
  rw [if_pos h]

/-- With the gate silent, a parsed name token selects the soulbound branch. -/
theorem routeTurn_token (fs : FS) (now : String) (mem : Memory) (pin : String)
    (tok : String) (h : pauseGateFires mem pin = false)
    (hp : parse_soulbound_token pin = some tok) :
    routeTurn fs now mem pin = routeToken mem tok := by
  unfold routeTurn
  rw [if_neg (by simp [h]), hp]

/-- With the gate silent and no name token, the command ladder runs. -/
theorem routeTurn_commands (fs : FS) (now : String) (mem : Memory) (pin : String)
    (h : pauseGateFires mem pin = false)
    (hp : parse_soulbound_token pin = none) :
    routeTurn fs now mem pin = routeCommands fs now mem pin := by
  unfold routeTurn
  rw [if_neg (by simp [h]), hp]

/-- The begin branch of the command ladder. -/
theorem routeCommands_begin (fs : FS) (now : String) (mem : Memory) (pin : String)
    (h : pyLower pin ∈ ["begin", "begin..."]) :
    routeCommands fs now mem pin =
      ⟨frost_scrub "The frost re-reads the Covenant. Memory realigns. The hunt begins.",
        { mem with rebind_count := mem.rebind_count + 1,
                   last_rebind_at := some now, paused := false },
        [{ mem with rebind_count := mem.rebind_count + 1,
                    last_rebind_at := some now, paused := false }]⟩ := by
  unfold routeCommands
  rw [if_pos h]

/-- A prefix extended by `...` still certifies the bare prefix (for the
`startswith` tuple of the pause gate). -/
theorem strHasPre_resume_of_dots (s : String)
    (h : strHasPre "resume..." s = true) : strHasPre "resume" s = true := by
  unfold strHasPre at h ⊢
  rw [show ("resume..." : String).data = ("resume" : String).data ++ ['.', '.', '.']
    by decide] at h
  exact hasPre_append_left _ _ _ h

/-- Companion of `strHasPre_resume_of_dots` for `begin...`. -/
theorem strHasPre_begin_of_dots (s : String)
    (h : strHasPre "begin..." s = true) : strHasPre "begin" s = true := by
  unfold strHasPre at h ⊢
  rw [show ("begin..." : String).data = ("begin" : String).data ++ ['.', '.', '.']
    by decide] at h
  exact hasPre_append_left _ _ _ h

/-!
### C5 — pause-gate frame property
-/

/-- C5 (confirmed): on a paused session, an input whose lowered form starts
with neither `resume` nor `begin` produces the fixed frost-holds message and
no state change beyond the unconditional journal append — `soulbound`,
`paused`, `rebind_count`, `last_rebind_at` and `scars` are all untouched. -/
theorem saga_pause_gate_frame (fs : FS) (now : String) (store : Memory) (raw : String)
    (hp : store.paused = true)
    (h1 : strHasPre "resume" (pyLower (sanitizeInput raw)) = false)
    (h2 : strHasPre "begin" (pyLower (sanitizeInput raw)) = false) :
    (sagaTurn fs now store raw).response =
      frost_scrub "The frost holds. (paused) Whisper: resume... or begin..." ∧
    (sagaTurn fs now store raw).mem = memAfterAppend store (sanitizeInput raw) ∧
    nonJournalEq (sagaTurn fs now store raw).mem store := by
  have hr8 : strHasPre "resume..." (pyLower (sanitizeInput raw)) = false := by
    by_contra hx
    rw [strHasPre_resume_of_dots _ (by simpa using hx)] at h1
    exact Bool.noConfusion h1
  have hb8 : strHasPre "begin..." (pyLower (sanitizeInput raw)) = false := by
    by_contra hx
    rw [strHasPre_begin_of_dots _ (by simpa using hx)] at h2
    exact Bool.noConfusion h2
  have hg : pauseGateFires (memAfterAppend store (sanitizeInput raw))
      (sanitizeInput raw) = true := by
    rw [pauseGate_append]
    unfold pauseGateFires
    rw [hp, h1, h2, hr8, hb8]
    rfl
  have hrt := routeTurn_gated fs now (memAfterAppend store (sanitizeInput raw))
    (sanitizeInput raw) hg
  refine ⟨?_, ?_, ?_⟩
  · rw [sagaTurn_response, hrt]
  · rw [sagaTurn_mem, hrt]
  · rw [sagaTurn_mem, hrt]
    exact ⟨memAfterAppend_soulbound .., memAfterAppend_paused ..,
      memAfterAppend_rebind .., memAfterAppend_last .., memAfterAppend_scars ..⟩

/-- Witness for `saga_pause_gate_frame`: a paused session rejects `journal`. -/
theorem saga_pause_gate_frame_witness :
    (sagaTurn fsEmpty "t0" { memoryDefault with paused := true } "journal").response =
      frost_scrub "The frost holds. (paused) Whisper: resume... or begin..." ∧
    nonJournalEq
      (sagaTurn fsEmpty "t0" { memoryDefault with paused := true } "journal").mem
      { memoryDefault with paused := true } :=
  ⟨(saga_pause_gate_frame fsEmpty "t0" { memoryDefault with paused := true }
      "journal" rfl (by decide) (by decide)).1,
   (saga_pause_gate_frame fsEmpty "t0" { memoryDefault with paused := true }
      "journal" rfl (by decide) (by decide)).2.2⟩

/-!
### C6 — the begin command
-/

/-- C6 (confirmed): a turn whose lowered sanitized input is exactly `begin` or
`begin...` increments `rebind_count` by one, stamps `last_rebind_at` with the
current time, clears `paused`, and returns the fixed hunt-begins message; no
turn of any kind ever decreases `rebind_count`. -/
theorem saga_begin_turn (fs : FS) (now : String) (store : Memory) (raw : String)
    (h : pyLower (sanitizeInput raw) = "begin" ∨
         pyLower (sanitizeInput raw) = "begin...") :
    (sagaTurn fs now store raw).mem.rebind_count = store.rebind_count + 1 ∧
    (sagaTurn fs now store raw).mem.last_rebind_at = some now ∧
    (sagaTurn fs now store raw).mem.paused = false ∧
    (sagaTurn fs now store raw).response =
      frost_scrub "The frost re-reads the Covenant. Memory realigns. The hunt begins." ∧
    (∀ raw' : String, store.rebind_count ≤ (sagaTurn fs now store raw').mem.rebind_count) := by
  have hsb : strHasPre "begin" (pyLower (sanitizeInput raw)) = true := by
    rcases h with h | h <;> rw [h] <;> decide
  have hg : pauseGateFires (memAfterAppend store (sanitizeInput raw))
      (sanitizeInput raw) = false := by
    rw [pauseGate_append]
    unfold pauseGateFires
    rw [hsb]
    simp
  have hpn : parse_soulbound_token (sanitizeInput raw) = none := by
    apply parse_none_of_head _ 'b'
    · rcases h with h | h <;> rw [h] <;> rfl
    all_goals decide
  have hmem : pyLower (sanitizeInput raw) ∈ ["begin", "begin..."] := by
    rcases h with h | h <;> rw [h] <;> decide
  have hrt := routeTurn_commands fs now (memAfterAppend store (sanitizeInput raw))
    (sanitizeInput raw) hg hpn
  have hrc := routeCommands_begin fs now (memAfterAppend store (sanitizeInput raw))
    (sanitizeInput raw) hmem
  refine ⟨?_, ?_, ?_, ?_, ?_⟩
  · rw [sagaTurn_mem, hrt, hrc]
    show (memAfterAppend store (sanitizeInput raw)).rebind_count + 1 = _
    rw [memAfterAppend_rebind]
  · rw [sagaTurn_mem, hrt, hrc]
  · rw [sagaTurn_mem, hrt, hrc]
  · rw [sagaTurn_response, hrt, hrc]
  · intro raw'
    rw [sagaTurn_mem]
    calc store.rebind_count
        = (memAfterAppend store (sanitizeInput raw')).rebind_count :=
          (memAfterAppend_rebind ..).symm
      _ ≤ _ := routeTurn_rebind_mono ..

/-- Witness for `saga_begin_turn` at a concrete `Begin...` turn. -/
theorem saga_begin_turn_witness :
    (sagaTurn fsEmpty "2026-01-01T00:00:00Z" memoryDefault "Begin...").mem.rebind_count
      = memoryDefault.rebind_count + 1 ∧
    (sagaTurn fsEmpty "2026-01-01T00:00:00Z" memoryDefault "Begin...").mem.last_rebind_at
      = some "2026-01-01T00:00:00Z" :=
  ⟨(saga_begin_turn fsEmpty "2026-01-01T00:00:00Z" memoryDefault "Begin..."
      (Or.inr (by decide))).1,
   (saga_begin_turn fsEmpty "2026-01-01T00:00:00Z" memoryDefault "Begin..."
      (Or.inr (by decide))).2.1⟩

/-!
### C4 — soulbound is set-once
-/

/-- C4 (confirmed): a non-null `soulbound` survives every turn unchanged, for
any input whatsoever.  On a name-token turn — one reaching the selection
branch, i.e. the pause gate silent and the input parsing as a roster token —
re-selecting the bound name returns the already-walks-alone message and
selecting a different roster name returns a rejection naming the current
soulbound, in both cases with no state change beyond the journal append,
while a name token on an unbound session sets `soulbound` to that name. -/
theorem saga_soulbound_set_once (fs : FS) (now : String) (store : Memory) (raw : String) :
    (∀ s, store.soulbound = some s →
      (sagaTurn fs now store raw).mem.soulbound = some s) ∧
    (pauseGateFires store (sanitizeInput raw) = false →
      ∀ tok, parse_soulbound_token (sanitizeInput raw) = some tok →
        (∀ s, store.soulbound = some s →
          (pyLower s = tok →
            (sagaTurn fs now store raw).response =
              frost_scrub ("The frost remembers: " ++ pyCapitalize tok ++
                " already walks alone.") ∧
            nonJournalEq (sagaTurn fs now store raw).mem store) ∧
          (pyLower s ≠ tok →
            (sagaTurn fs now store raw).response =
              frost_scrub ("The frost rejects this name. The soulbound is already "
                ++ s ++ ".") ∧
            nonJournalEq (sagaTurn fs now store raw).mem store)) ∧
        (store.soulbound = none →
          (sagaTurn fs now store raw).mem.soulbound = some (pyCapitalize tok))) := by
  constructor
  · intro s hs
    rw [sagaTurn_mem]
    exact routeTurn_soulbound_some _ _ _ _ s
      (by rw [memAfterAppend_soulbound]; exact hs)
  · intro hg tok hp
    have hg1 : pauseGateFires (memAfterAppend store (sanitizeInput raw))
        (sanitizeInput raw) = false := by
      rw [pauseGate_append]; exact hg
    have hrt := routeTurn_token fs now (memAfterAppend store (sanitizeInput raw))
      (sanitizeInput raw) tok hg1 hp
    constructor
    · intro s hs
      have hms : (memAfterAppend store (sanitizeInput raw)).soulbound = some s := by
        rw [memAfterAppend_soulbound]; exact hs
      constructor
      · intro heq
        constructor
        · rw [sagaTurn_response, hrt]
          simp only [routeToken, hms]
          rw [if_pos heq]
        · rw [sagaTurn_mem, hrt]
          simp only [routeToken, hms]
          rw [if_pos heq]
          exact ⟨memAfterAppend_soulbound .., memAfterAppend_paused ..,
            memAfterAppend_rebind .., memAfterAppend_last .., memAfterAppend_scars ..⟩
      · intro hne
        constructor
        · rw [sagaTurn_response, hrt]
          simp only [routeToken, hms]
          rw [if_neg hne]
        · rw [sagaTurn_mem, hrt]
          simp only [routeToken, hms]
          rw [if_neg hne]
          exact ⟨memAfterAppend_soulbound .., memAfterAppend_paused ..,
            memAfterAppend_rebind .., memAfterAppend_last .., memAfterAppend_scars ..⟩
    · intro hnone
      have hm0 : (memAfterAppend store (sanitizeInput raw)).soulbound = none := by
        rw [memAfterAppend_soulbound]; exact hnone
      rw [sagaTurn_mem, hrt]
      simp only [routeToken, hm0]

/-- Witness for `saga_soulbound_set_once`: a bound session re-selecting its
own name keeps the binding and hears the already-walks-alone line. -/
theorem saga_soulbound_set_once_witness :
    (sagaTurn fsEmpty "t0" { memoryDefault with soulbound := some "Drocathmor" }
      "Drocathmor").mem.soulbound = some "Drocathmor" ∧
    (sagaTurn fsEmpty "t0" { memoryDefault with soulbound := some "Drocathmor" }
      "Drocathmor").response =
      frost_scrub ("The frost remembers: " ++ pyCapitalize "drocathmor" ++
        " already walks alone.") :=
  ⟨(saga_soulbound_set_once fsEmpty "t0"
      { memoryDefault with soulbound := some "Drocathmor" } "Drocathmor").1
      "Drocathmor" rfl,
   ((((saga_soulbound_set_once fsEmpty "t0"
      { memoryDefault with soulbound := some "Drocathmor" } "Drocathmor").2
      (by decide) "drocathmor" (by decide)).1 "Drocathmor" rfl).1 (by decide)).1⟩

/-!
### C8 — shape of name-token matches
-/

/-- Letters are never whitespace. -/
theorem alpha_not_space (c : Char) (h : pyIsAlpha c = true) :
    pyIsSpaceChar c = false := by
  by_contra hx
  have := space_not_alpha c (by simpa using hx)
  rw [h] at this
  exact Bool.noConfusion this

/-- `dropWhile` passes over a block whose members all satisfy the predicate. -/
theorem dropWhile_all_append (p : Char → Bool) (a b : List Char)
    (ha : a.all p = true) : (a ++ b).dropWhile p = b.dropWhile p := by
  induction a with
  | nil => rfl
  | cons c cs ih =>
    rw [List.all_cons, Bool.and_eq_true] at ha
    simp [List.dropWhile, ha.1, ih ha.2]

/-- `dropWhile` stops at a failing head. -/
theorem dropWhile_cons_of_neg (p : Char → Bool) (c : Char) (l : List Char)
    (h : p c = false) : (c :: l).dropWhile p = c :: l := by
  simp [List.dropWhile, h]

/-- Every character of the quote/word/punctuation core is non-whitespace. -/
theorem mid_nonspace (q w p : List Char)
    (hq : q = [] ∨ q = ['"'] ∨ q = ['“'])
    (hw : w.all pyIsAlpha = true)
    (hp : p = [] ∨ p = ['.'] ∨ p = ['!'] ∨ p = ['?'] ∨ p = ['"']) :
    ∀ c ∈ q ++ w ++ p, pyIsSpaceChar c = false := by
  intro c hc
  rw [List.append_assoc, List.mem_append, List.mem_append] at hc
  rcases hc with hc | hc | hc
  · rcases hq with h | h | h <;> subst h <;> simp at hc
    · subst hc; decide
    · subst hc; decide
  · exact alpha_not_space c (by
      rw [List.all_eq_true] at hw
      exact hw c hc)
  · rcases hp with h | h | h | h | h <;> subst h <;> simp at hc <;>
      subst hc <;> decide

/-- Stripping an input of `NAME_TOKEN` shape leaves exactly the
quote/word/punctuation core. -/
theorem pyStrip_of_decomp (s : String) (sp1 q w p sp2 : List Char)
    (hsplit : s.data = sp1 ++ q ++ w ++ p ++ sp2)
    (hsp1 : sp1.all pyIsSpaceChar = true)
    (hq : q = [] ∨ q = ['"'] ∨ q = ['“'])
    (hwne : w ≠ []) (hw : w.all pyIsAlpha = true)
    (hp : p = [] ∨ p = ['.'] ∨ p = ['!'] ∨ p = ['?'] ∨ p = ['"'])
    (hsp2 : sp2.all pyIsSpaceChar = true) :
    (pyStrip s).data = q ++ w ++ p := by
  have e : s.data = sp1 ++ ((q ++ w ++ p) ++ sp2) := by
    rw [hsplit]; simp [List.append_assoc]
  have hmidne : q ++ w ++ p ≠ [] := by
    intro hx
    rcases List.append_eq_nil.mp hx with ⟨hqw, -⟩
    exact hwne (List.append_eq_nil.mp hqw).2
  have step1 : s.data.dropWhile pyIsSpaceChar = (q ++ w ++ p) ++ sp2 := by
    rw [e, dropWhile_all_append _ _ _ hsp1]
    cases hm : q ++ w ++ p with
    | nil => exact absurd hm hmidne
    | cons m0 mrest =>
      rw [List.cons_append]
      exact dropWhile_cons_of_neg _ _ _
        (mid_nonspace q w p hq hw hp m0 (by rw [hm]; exact List.mem_cons_self ..))
  show ((s.data.dropWhile pyIsSpaceChar).reverse.dropWhile pyIsSpaceChar).reverse = _
  rw [step1, List.reverse_append,
    dropWhile_all_append _ _ _ (by rw [List.all_reverse]; exact hsp2)]
  cases hr : (q ++ w ++ p).reverse with
  | nil => exact absurd (List.reverse_eq_nil_iff.mp hr) hmidne
  | cons r0 rrest =>
    rw [dropWhile_cons_of_neg _ _ _ (mid_nonspace q w p hq hw hp r0
      (by rw [← List.mem_reverse, hr]; exact List.mem_cons_self ..))]
    rw [← hr, List.reverse_reverse]

/-- C8 (confirmed): a name token parses only when the entire stripped input is
one all-letter word with an optional leading quote and at most one trailing
mark, whose lowered form is a roster key; and any input retaining whitespace
after stripping — i.e. whitespace between non-space characters — never
parses. -/
theorem parse_token_shape :
    (∀ s t, parse_soulbound_token s = some t →
      (t = "drocathmor" ∨ t = "dreknoth" ∨ t = "thayren" ∨ t = "veydran") ∧
      ∃ q w p, (pyStrip s).data = q ++ w ++ p ∧
        (q = [] ∨ q = ['"'] ∨ q = ['“']) ∧
        w ≠ [] ∧ w.all pyIsAlpha = true ∧
        (p = [] ∨ p = ['.'] ∨ p = ['!'] ∨ p = ['?'] ∨ p = ['"']) ∧
        t = (⟨w.map Char.toLower⟩ : String)) ∧
    (∀ s : String, (pyStrip s).data.any pyIsSpaceChar = true →
      parse_soulbound_token s = none) := by
  constructor
  · intro s t h
    obtain ⟨w, hew, htw, hros⟩ := parse_some_elim s t h
    obtain ⟨sp1, q, p, sp2, hsplit, hsp1, hq, hwne, hwal, hpn, hsp2⟩ :=
      extractNameWord_decomp s.data w hew
    exact ⟨roster_cases t hros,
      q, w, p, pyStrip_of_decomp s sp1 q w p sp2 hsplit hsp1 hq hwne hwal hpn hsp2,
      hq, hwne, hwal, hpn, htw⟩
  · intro s hany
    cases hp : parse_soulbound_token s with
    | none => rfl
    | some t =>
      exfalso
      obtain ⟨w, hew, htw, hros⟩ := parse_some_elim s t hp
      obtain ⟨sp1, q, p, sp2, hsplit, hsp1, hq, hwne, hwal, hpn, hsp2⟩ :=
        extractNameWord_decomp s.data w hew
      rw [pyStrip_of_decomp s sp1 q w p sp2 hsplit hsp1 hq hwne hwal hpn hsp2] at hany
      rw [List.any_eq_true] at hany
      obtain ⟨c, hc, hcs⟩ := hany
      rw [mid_nonspace q w p hq hwal hpn c hc] at hcs
      exact Bool.noConfusion hcs

/-- Witness for `parse_token_shape`: `"Drocathmor."` parses with the expected
shape, while `"drocathmor awakens"` is rejected by the single-word rule. -/
theorem parse_token_shape_witness :
    parse_soulbound_token "drocathmor awakens" = none ∧
    (parse_soulbound_token "Drocathmor." = some "drocathmor" ∨
      parse_soulbound_token "Drocathmor." = some "dreknoth" ∨
      parse_soulbound_token "Drocathmor." = some "thayren" ∨
      parse_soulbound_token "Drocathmor." = some "veydran") :=
  ⟨parse_token_shape.2 "drocathmor awakens" (by decide),
   by
    rcases (parse_token_shape.1 "Drocathmor." "drocathmor" (by decide)).1
      with h | h | h | h
    · exact Or.inl (by decide)
    · exact Or.inl (by decide)
    · exact Or.inl (by decide)
    · exact Or.inl (by decide)⟩

/-!
### Reachability of the deep ladder branches
-/

/-- A subject with prefix `pre` cannot equal a string lacking that prefix. -/
theorem not_eq_of_hasPre (pre low v : String) (h : strHasPre pre low = true)
    (hv : strHasPre pre v = false) : low ≠ v := by
  intro he
  rw [he, hv] at h
  exact Bool.noConfusion h

/-- Non-membership in a two-element command list. -/
theorem not_mem_pair (low a b : String) (ha : low ≠ a) (hb : low ≠ b) :
    low ∉ [a, b] := by simp [ha, hb]

/-- A `CANON_FILES` lookup misses when the key is none of the four canon
names. -/
theorem canon_lookup_none (low : String) (h1 : low ≠ "covenant")
    (h2 : low ≠ "world") (h3 : low ≠ "flora") (h4 : low ≠ "commands") :
    CANON_FILES.lookup low = none := by
  have e1 : (low == ("covenant" : String)) = false := beq_eq_false_iff_ne.mpr h1
  have e2 : (low == ("world" : String)) = false := beq_eq_false_iff_ne.mpr h2
  have e3 : (low == ("flora" : String)) = false := beq_eq_false_iff_ne.mpr h3
  have e4 : (low == ("commands" : String)) = false := beq_eq_false_iff_ne.mpr h4
  simp [CANON_FILES, List.lookup, e1, e2, e3, e4]

/-- Two prefixes of one subject are nested, so a candidate prefix that does
not start the actual (not shorter) prefix cannot match the subject. -/
theorem strHasPre_conflict (p1 p2 s : String)
    (hlen : p1.data.length ≤ p2.data.length)
    (hfalse : hasPre p1.data p2.data = false)
    (h2 : strHasPre p2 s = true) : strHasPre p1 s = false := by
  by_contra hx
  have := hasPre_of_hasPre_le p1.data p2.data s.data (by simpa using hx) h2 hlen
  rw [hfalse] at this
  exact Bool.noConfusion this

/-- A matched string prefix determines the head of the subject. -/
theorem strHasPre_head_eq (pre s : String) (c : Char)
    (hpre : pre.data.head? = some c) (h : strHasPre pre s = true) :
    s.data.head? = some c := by
  unfold strHasPre at h
  cases hd : pre.data with
  | nil => rw [hd] at hpre; exact Option.noConfusion hpre
  | cons a as =>
    rw [hd] at hpre h
    have ha : a = c := Option.some.inj (by simpa using hpre)
    rw [hasPre_head a as s.data h]
    rw [ha]

/-- The command ladder reduces to the abilities branch whenever the lowered
input starts with `abilities `. -/
theorem routeCommands_abilities (fs : FS) (now : String) (mem : Memory) (pin : String)
    (h : strHasPre "abilities " (pyLower pin) = true) :
    routeCommands fs now mem pin =
      (match mem.soulbound with
      | none => ⟨frost_scrub "The frost waits. No soul has been bound yet.", mem, []⟩
      | some sb =>
        match parse_soulbound_token (afterFirstSpace pin) with
        | some tok =>
          if pyLower sb = tok then
            ⟨frost_scrub (load_file_text fs
                ((SOULBOUND_FILES.lookup tok).getD ("", "")).1 "abilities"), mem, []⟩
          else
            ⟨frost_scrub ("The frost denies you. Only " ++ sb ++
                " may be remembered."), mem, []⟩
        | none =>
          ⟨frost_scrub ("The frost denies you. Only " ++ sb ++
              " may be remembered."), mem, []⟩) := by
  have hb1 : pyLower pin ≠ "begin" := not_eq_of_hasPre _ _ _ h (by decide)
  have hb2 : pyLower pin ≠ "begin..." := not_eq_of_hasPre _ _ _ h (by decide)
  have hp1 : pyLower pin ≠ "pause" := not_eq_of_hasPre _ _ _ h (by decide)
  have hp2 : pyLower pin ≠ "pause..." := not_eq_of_hasPre _ _ _ h (by decide)
  have hr1 : pyLower pin ≠ "resume" := not_eq_of_hasPre _ _ _ h (by decide)
  have hr2 : pyLower pin ≠ "resume..." := not_eq_of_hasPre _ _ _ h (by decide)
  have hc1 : pyLower pin ≠ "covenant" := not_eq_of_hasPre _ _ _ h (by decide)
  have hc2 : pyLower pin ≠ "world" := not_eq_of_hasPre _ _ _ h (by decide)
  have hc3 : pyLower pin ≠ "flora" := not_eq_of_hasPre _ _ _ h (by decide)
  have hc4 : pyLower pin ≠ "commands" := not_eq_of_hasPre _ _ _ h (by decide)
  have hnpc : strHasPre "npc " (pyLower pin) = false :=
    strHasPre_conflict _ _ _ (by decide) (by decide) h
  have hjour : strHasPre "journal" (pyLower pin) = false :=
    strHasPre_conflict _ _ _ (by decide) (by decide) h
  have hcmd : strHasPre "commands" (pyLower pin) = false :=
    strHasPre_conflict _ _ _ (by decide) (by decide) h
  unfold routeCommands
  rw [if_neg (not_mem_pair _ _ _ hb1 hb2), if_neg (not_mem_pair _ _ _ hp1 hp2),
    if_neg (not_mem_pair _ _ _ hr1 hr2), canon_lookup_none _ hc1 hc2 hc3 hc4]
  dsimp only
  rw [if_neg (by rw [hnpc]; exact Bool.false_ne_true),
    if_neg (by rw [hjour]; exact Bool.false_ne_true),
    if_neg (by rw [hcmd]; exact Bool.false_ne_true),
    if_pos h]

/-- The command ladder reduces to the character branch whenever the lowered
input starts with `character `. -/
theorem routeCommands_character (fs : FS) (now : String) (mem : Memory) (pin : String)
    (h : strHasPre "character " (pyLower pin) = true) :
    routeCommands fs now mem pin =
      (match mem.soulbound with
      | none => ⟨frost_scrub "The frost waits. No soul has been bound yet.", mem, []⟩
      | some sb =>
        match parse_soulbound_token (afterFirstSpace pin) with
        | some tok =>
          if pyLower sb = tok then
            ⟨frost_scrub (load_file_text fs
                ((SOULBOUND_FILES.lookup tok).getD ("", "")).2 "character sheet"),
              mem, []⟩
          else
            ⟨frost_scrub ("The frost denies you. Only " ++ sb ++
                " may walk here."), mem, []⟩
        | none =>
          ⟨frost_scrub ("The frost denies you. Only " ++ sb ++
              " may walk here."), mem, []⟩) := by
  have hb1 : pyLower pin ≠ "begin" := not_eq_of_hasPre _ _ _ h (by decide)
  have hb2 : pyLower pin ≠ "begin..." := not_eq_of_hasPre _ _ _ h (by decide)
  have hp1 : pyLower pin ≠ "pause" := not_eq_of_hasPre _ _ _ h (by decide)
  have hp2 : pyLower pin ≠ "pause..." := not_eq_of_hasPre _ _ _ h (by decide)
  have hr1 : pyLower pin ≠ "resume" := not_eq_of_hasPre _ _ _ h (by decide)
  have hr2 : pyLower pin ≠ "resume..." := not_eq_of_hasPre _ _ _ h (by decide)
  have hc1 : pyLower pin ≠ "covenant" := not_eq_of_hasPre _ _ _ h (by decide)
  have hc2 : pyLower pin ≠ "world" := not_eq_of_hasPre _ _ _ h (by decide)
  have hc3 : pyLower pin ≠ "flora" := not_eq_of_hasPre _ _ _ h (by decide)
  have hc4 : pyLower pin ≠ "commands" := not_eq_of_hasPre _ _ _ h (by decide)
  have hnpc : strHasPre "npc " (pyLower pin) = false :=
    strHasPre_conflict _ _ _ (by decide) (by decide) h
  have hjour : strHasPre "journal" (pyLower pin) = false :=
    strHasPre_conflict _ _ _ (by decide) (by decide) h
  have hcmd : strHasPre "commands" (pyLower pin) = false :=
    strHasPre_conflict _ _ _ (by decide) (by decide) h
  have habl : strHasPre "abilities " (pyLower pin) = false :=
    strHasPre_conflict _ _ _ (by decide) (by decide) h
  unfold routeCommands
  rw [if_neg (not_mem_pair _ _ _ hb1 hb2), if_neg (not_mem_pair _ _ _ hp1 hp2),
    if_neg (not_mem_pair _ _ _ hr1 hr2), canon_lookup_none _ hc1 hc2 hc3 hc4]
  dsimp only
  rw [if_neg (by rw [hnpc]; exact Bool.false_ne_true),
    if_neg (by rw [hjour]; exact Bool.false_ne_true),
    if_neg (by rw [hcmd]; exact Bool.false_ne_true),
    if_neg (by rw [habl]; exact Bool.false_ne_true),
    if_pos h]

/-!
### C7 — gated per-character lookup
-/

/-- C7 (corrected): on a turn reaching the `abilities <name>` or
`character <name>` branch (pause gate silent), an unbound session hears the
frost-waits message, a name that is no roster token or differs
case-insensitively from the bound name draws the frost-denies rejection
naming the bound soulbound, and the bound name itself yields the
corresponding abilities or character-sheet content; in all cases no state
field other than the journal (which receives the turn's unconditional
append) is mutated. -/
theorem saga_gated_lookup (fs : FS) (now : String) (store : Memory) (raw : String)
    (hg : pauseGateFires store (sanitizeInput raw) = false) :
    (strHasPre "abilities " (pyLower (sanitizeInput raw)) = true →
      (store.soulbound = none →
        (sagaTurn fs now store raw).response =
          frost_scrub "The frost waits. No soul has been bound yet." ∧
        nonJournalEq (sagaTurn fs now store raw).mem store) ∧
      (∀ sb, store.soulbound = some sb →
        (parse_soulbound_token (afterFirstSpace (sanitizeInput raw)) = none →
          (sagaTurn fs now store raw).response =
            frost_scrub ("The frost denies you. Only " ++ sb ++
              " may be remembered.") ∧
          nonJournalEq (sagaTurn fs now store raw).mem store) ∧
        (∀ tok,
          parse_soulbound_token (afterFirstSpace (sanitizeInput raw)) = some tok →
          (pyLower sb ≠ tok →
            (sagaTurn fs now store raw).response =
              frost_scrub ("The frost denies you. Only " ++ sb ++
                " may be remembered.") ∧
            nonJournalEq (sagaTurn fs now store raw).mem store) ∧
          (pyLower sb = tok →
            (sagaTurn fs now store raw).response =
              frost_scrub (load_file_text fs
                ((SOULBOUND_FILES.lookup tok).getD ("", "")).1 "abilities") ∧
            nonJournalEq (sagaTurn fs now store raw).mem store)))) ∧
    (strHasPre "character " (pyLower (sanitizeInput raw)) = true →
      (store.soulbound = none →
        (sagaTurn fs now store raw).response =
          frost_scrub "The frost waits. No soul has been bound yet." ∧
        nonJournalEq (sagaTurn fs now store raw).mem store) ∧
      (∀ sb, store.soulbound = some sb →
        (parse_soulbound_token (afterFirstSpace (sanitizeInput raw)) = none →
          (sagaTurn fs now store raw).response =
            frost_scrub ("The frost denies you. Only " ++ sb ++
              " may walk here.") ∧
          nonJournalEq (sagaTurn fs now store raw).mem store) ∧
        (∀ tok,
          parse_soulbound_token (afterFirstSpace (sanitizeInput raw)) = some tok →
          (pyLower sb ≠ tok →
            (sagaTurn fs now store raw).response =
              frost_scrub ("The frost denies you. Only " ++ sb ++
                " may walk here.") ∧
            nonJournalEq (sagaTurn fs now store raw).mem store) ∧
          (pyLower sb = tok →
            (sagaTurn fs now store raw).response =
              frost_scrub (load_file_text fs
                ((SOULBOUND_FILES.lookup tok).getD ("", "")).2 "character sheet") ∧
            nonJournalEq (sagaTurn fs now store raw).mem store)))) := by
  have hg1 : pauseGateFires (memAfterAppend store (sanitizeInput raw))
      (sanitizeInput raw) = false := by
    rw [pauseGate_append]; exact hg
  have hfm : nonJournalEq (memAfterAppend store (sanitizeInput raw)) store :=
    ⟨memAfterAppend_soulbound .., memAfterAppend_paused ..,
      memAfterAppend_rebind .., memAfterAppend_last .., memAfterAppend_scars ..⟩
  constructor
  · intro habil
    have hpn : parse_soulbound_token (sanitizeInput raw) = none :=
      parse_none_of_head _ 'a'
        (strHasPre_head_eq _ _ 'a' (by decide) habil)
        (by decide) (by decide) (by decide) (by decide) (by decide) (by decide)
    have hrt := routeTurn_commands fs now (memAfterAppend store (sanitizeInput raw))
      (sanitizeInput raw) hg1 hpn
    have hroute := routeCommands_abilities fs now
      (memAfterAppend store (sanitizeInput raw)) (sanitizeInput raw) habil
    constructor
    · intro hnone
      have hm : (memAfterAppend store (sanitizeInput raw)).soulbound = none := by
        rw [memAfterAppend_soulbound]; exact hnone
      constructor
      · rw [sagaTurn_response, hrt, hroute]; simp only [hm]
      · rw [sagaTurn_mem, hrt, hroute]; simp only [hm]; exact hfm
    · intro sb hsb
      have hm : (memAfterAppend store (sanitizeInput raw)).soulbound = some sb := by
        rw [memAfterAppend_soulbound]; exact hsb
      constructor
      · intro hpnone
        constructor
        · rw [sagaTurn_response, hrt, hroute]; simp only [hm, hpnone]
        · rw [sagaTurn_mem, hrt, hroute]; simp only [hm, hpnone]; exact hfm
      · intro tok hptok
        constructor
        · intro hne
          constructor
          · rw [sagaTurn_response, hrt, hroute]
            simp only [hm, hptok]
            rw [if_neg hne]
          · rw [sagaTurn_mem, hrt, hroute]
            simp only [hm, hptok]
            rw [if_neg hne]
            exact hfm
        · intro heq
          constructor
          · rw [sagaTurn_response, hrt, hroute]
            simp only [hm, hptok]
            rw [if_pos heq]
          · rw [sagaTurn_mem, hrt, hroute]
            simp only [hm, hptok]
            rw [if_pos heq]
            exact hfm
  · intro hchar
    have hpn : parse_soulbound_token (sanitizeInput raw) = none :=
      parse_none_of_head _ 'c'
        (strHasPre_head_eq _ _ 'c' (by decide) hchar)
        (by decide) (by decide) (by decide) (by decide) (by decide) (by decide)
    have hrt := routeTurn_commands fs now (memAfterAppend store (sanitizeInput raw))
      (sanitizeInput raw) hg1 hpn
    have hroute := routeCommands_character fs now
      (memAfterAppend store (sanitizeInput raw)) (sanitizeInput raw) hchar
    constructor
    · intro hnone
      have hm : (memAfterAppend store (sanitizeInput raw)).soulbound = none := by
        rw [memAfterAppend_soulbound]; exact hnone
      constructor
      · rw [sagaTurn_response, hrt, hroute]; simp only [hm]
      · rw [sagaTurn_mem, hrt, hroute]; simp only [hm]; exact hfm
    · intro sb hsb
      have hm : (memAfterAppend store (sanitizeInput raw)).soulbound = some sb := by
        rw [memAfterAppend_soulbound]; exact hsb
      constructor
      · intro hpnone
        constructor
        · rw [sagaTurn_response, hrt, hroute]; simp only [hm, hpnone]
        · rw [sagaTurn_mem, hrt, hroute]; simp only [hm, hpnone]; exact hfm
      · intro tok hptok
        constructor
        · intro hne
          constructor
          · rw [sagaTurn_response, hrt, hroute]
            simp only [hm, hptok]
            rw [if_neg hne]
          · rw [sagaTurn_mem, hrt, hroute]
            simp only [hm, hptok]
            rw [if_neg hne]
            exact hfm
        · intro heq
          constructor
          · rw [sagaTurn_response, hrt, hroute]
            simp only [hm, hptok]
            rw [if_pos heq]
          · rw [sagaTurn_mem, hrt, hroute]
            simp only [hm, hptok]
            rw [if_pos heq]
            exact hfm

/-- C7 counterexample: even the frost-waits refusal appends the input to the
journal, so "no state field is mutated" is false as stated. -/
theorem saga_gated_lookup_mutates_journal :
    (sagaTurn fsEmpty "t0" memoryDefault "abilities Drocathmor").mem.journal ≠
      memoryDefault.journal := by
  decide

/-- Witness for `saga_gated_lookup`: a session bound to Drocathmor fetches the
Drocathmor abilities sheet. -/
theorem saga_gated_lookup_witness :
    (sagaTurn fsEmpty "t0" { memoryDefault with soulbound := some "Drocathmor" }
      "abilities Drocathmor").response =
      frost_scrub (load_file_text fsEmpty
        ((SOULBOUND_FILES.lookup "drocathmor").getD ("", "")).1 "abilities") :=
  ((((saga_gated_lookup fsEmpty "t0"
      { memoryDefault with soulbound := some "Drocathmor" } "abilities Drocathmor"
      (by decide)).1 (by decide)).2 "Drocathmor" rfl).2 "drocathmor"
      (by decide)).2 (by decide) |>.1

/-!
### C10 — the journal dump always sees the fresh append
-/

/-- The command ladder reduces to the journal dump whenever the lowered input
starts with `journal`. -/
theorem routeCommands_journal_branch (fs : FS) (now : String) (mem : Memory)
    (pin : String) (h : strHasPre "journal" (pyLower pin) = true) :
    routeCommands fs now mem pin =
      ⟨frost_scrub (pyOr (pyJoin "\n" mem.journal)
          "(The frost has kept no words yet.)"), mem, []⟩ := by
  have hb1 : pyLower pin ≠ "begin" := not_eq_of_hasPre _ _ _ h (by decide)
  have hb2 : pyLower pin ≠ "begin..." := not_eq_of_hasPre _ _ _ h (by decide)
  have hp1 : pyLower pin ≠ "pause" := not_eq_of_hasPre _ _ _ h (by decide)
  have hp2 : pyLower pin ≠ "pause..." := not_eq_of_hasPre _ _ _ h (by decide)
  have hr1 : pyLower pin ≠ "resume" := not_eq_of_hasPre _ _ _ h (by decide)
  have hr2 : pyLower pin ≠ "resume..." := not_eq_of_hasPre _ _ _ h (by decide)
  have hc1 : pyLower pin ≠ "covenant" := not_eq_of_hasPre _ _ _ h (by decide)
  have hc2 : pyLower pin ≠ "world" := not_eq_of_hasPre _ _ _ h (by decide)
  have hc3 : pyLower pin ≠ "flora" := not_eq_of_hasPre _ _ _ h (by decide)
  have hc4 : pyLower pin ≠ "commands" := not_eq_of_hasPre _ _ _ h (by decide)
  have hnpc : strHasPre "npc " (pyLower pin) = false :=
    strHasPre_conflict _ _ _ (by decide) (by decide) h
  unfold routeCommands
  rw [if_neg (not_mem_pair _ _ _ hb1 hb2), if_neg (not_mem_pair _ _ _ hp1 hp2),
    if_neg (not_mem_pair _ _ _ hr1 hr2), canon_lookup_none _ hc1 hc2 hc3 hc4]
  dsimp only
  rw [if_neg (by rw [hnpc]; exact Bool.false_ne_true), if_pos h]

/-- A join of entries ending in `x` carries `x` as a suffix. -/
theorem pyJoin_suffix (l : List String) (x : String) :
    ∃ pre : List Char, (pyJoin "\n" (l ++ [x])).data = pre ++ x.data := by
  induction l with
  | nil => exact ⟨[], rfl⟩
  | cons a rest ih =>
    obtain ⟨pre, hpre⟩ := ih
    cases rest with
    | nil =>
      exact ⟨(a ++ "\n").data, by
        show (a ++ "\n" ++ x).data = _
        rw [String.data_append]⟩
    | cons b rest' =>
      refine ⟨(a ++ "\n").data ++ pre, ?_⟩
      show (a ++ "\n" ++ pyJoin "\n" ((b :: rest') ++ [x])).data = _
      rw [String.data_append, hpre, List.append_assoc]

/-- C10 (confirmed): whenever the journal-dump branch fires — non-empty
sanitized input starting (lowered) with `journal`, pause gate silent — the
current turn's input has already been appended, so the dump is the join of
the old journal plus that input: the empty-journal placeholder is bypassed
(the join is non-empty) and the dumped history ends with the turn's own
input. -/
theorem saga_journal_dump (fs : FS) (now : String) (store : Memory) (raw : String)
    (hne : sanitizeInput raw ≠ "")
    (hj : strHasPre "journal" (pyLower (sanitizeInput raw)) = true)
    (hg : pauseGateFires store (sanitizeInput raw) = false) :
    (sagaTurn fs now store raw).response =
      frost_scrub (pyJoin "\n" (store.journal ++ [sanitizeInput raw])) ∧
    pyJoin "\n" (store.journal ++ [sanitizeInput raw]) ≠ "" ∧
    (∃ pre : List Char, (pyJoin "\n" (store.journal ++ [sanitizeInput raw])).data =
      pre ++ (sanitizeInput raw).data) := by
  have hg1 : pauseGateFires (memAfterAppend store (sanitizeInput raw))
      (sanitizeInput raw) = false := by
    rw [pauseGate_append]; exact hg
  have hpn : parse_soulbound_token (sanitizeInput raw) = none :=
    parse_none_of_head _ 'j'
      (strHasPre_head_eq _ _ 'j' (by decide) hj)
      (by decide) (by decide) (by decide) (by decide) (by decide) (by decide)
  have hrt := routeTurn_commands fs now (memAfterAppend store (sanitizeInput raw))
    (sanitizeInput raw) hg1 hpn
  have hroute := routeCommands_journal_branch fs now
    (memAfterAppend store (sanitizeInput raw)) (sanitizeInput raw) hj
  have hjl : (memAfterAppend store (sanitizeInput raw)).journal =
      store.journal ++ [sanitizeInput raw] := by
    unfold memAfterAppend
    rw [if_neg hne]
  obtain ⟨pre, hpre⟩ := pyJoin_suffix store.journal (sanitizeInput raw)
  have hjoin_ne : pyJoin "\n" (store.journal ++ [sanitizeInput raw]) ≠ "" := by
    intro hx
    have hx' : (pyJoin "\n" (store.journal ++ [sanitizeInput raw])).data = [] := by
      rw [hx]
    rw [hpre] at hx'
    rcases List.append_eq_nil.mp hx' with ⟨-, hxd⟩
    exact hne (String.ext (by rw [hxd]))
  refine ⟨?_, hjoin_ne, pre, hpre⟩
  rw [sagaTurn_response, hrt, hroute, hjl]
  unfold pyOr
  rw [if_neg hjoin_ne]

/-- Witness for `saga_journal_dump`: after one prior entry, `journal` dumps
both entries, ending with the current input. -/
theorem saga_journal_dump_witness :
    (sagaTurn fsEmpty "t0" { memoryDefault with journal := ["the hunt stirs"] }
      "journal").response =
      frost_scrub (pyJoin "\n" (["the hunt stirs"] ++ ["journal"])) ∧
    pyJoin "\n" (["the hunt stirs"] ++ ["journal"]) ≠ "" :=
  ⟨((saga_journal_dump fsEmpty "t0" { memoryDefault with journal := ["the hunt stirs"] }
      "journal" (by decide) (by decide) (by decide)).1),
   ((saga_journal_dump fsEmpty "t0" { memoryDefault with journal := ["the hunt stirs"] }
      "journal" (by decide) (by decide) (by decide)).2.1)⟩

